import Mathlib

/-!
Verification of the day-selection and data-normalization logic of the
`astrbot_plugin_bangumi` chatbot plugin (`main.py`).

The plugin works on loosely-typed JSON payloads.  We shallowly embed the
JSON values the plugin manipulates as the inductive type `JVal` below
(Python dicts become association lists), translate each pure helper of
`BangumiPlugin` into a Lean function of the same name (minus the leading
underscore), and prove the spec's claims about those functions.

Modelling conventions, stated once:
* Python `int` is `Int`.  Python `bool` is a separate `JVal` constructor,
  but — as in Python, where `bool` is a subclass of `int` — the numeric
  coercions treat `True`/`False` as `1`/`0`.
* Python `float` is modelled by `ℚ` (every IEEE double is a rational).
  Decimal-literal parsing is exact rational parsing and `"%.1f"`
  formatting rounds half-to-even, which agrees with CPython on every
  value that is exactly representable as a double (all values appearing
  in the claims).  Non-finite literals (`inf`, `nan`) are outside the
  model.
* Python `datetime.date` values are represented by their proleptic
  Gregorian ordinal (`date.toordinal()`, an `Int`); `date` comparison,
  `timedelta(days=·)` arithmetic and `isoweekday()` are ordinal
  comparison, ordinal arithmetic and `toordinal() % 7 or 7` in CPython,
  so the representation is faithful.  `date.fromisoformat` is modelled
  for the `YYYY-MM-DD` form (the one the Bangumi API emits and the one
  every supported CPython version accepts).
* Python `str.strip` strips the ASCII whitespace characters
  (space, `\t`, `\n`, `\r`, `\x0b`, `\x0c`); the rare non-ASCII
  whitespace code points CPython also strips are outside the model.
-/

namespace BangumiSpec

/-- A Python/JSON value as the plugin sees it after `response.json()`. -/
inductive JVal where
  | jnull : JVal
  | jbool (b : Bool) : JVal
  | jint (n : Int) : JVal
  | jfloat (q : ℚ) : JVal
  | jstr (s : String) : JVal
  | jlist (xs : List JVal) : JVal
  | jobj (fields : List (String × JVal)) : JVal

/-- A Python dict (a JSON object): an association list of fields.
Python dicts have unique keys, so first-match lookup is faithful. -/
abbrev JObj := List (String × JVal)

/-- Python `d.get(k)` on a dict, distinguishing a missing key (`none`). -/
def jget? (o : JObj) (k : String) : Option JVal :=
  (o.find? (fun p => p.1 == k)).map (fun p => p.2)

/-- Python `d.get(k)`: a missing key yields `None`, i.e. `jnull`. -/
def jgetPy (o : JObj) (k : String) : JVal :=
  (jget? o k).getD .jnull

/-- Python truthiness of a value (`if value:`). -/
def pyTruthy : JVal → Bool
  | .jnull => false
  | .jbool b => b
  | .jint n => n != 0
  | .jfloat q => q != 0
  | .jstr s => s != ""
  | .jlist xs => !xs.isEmpty
  | .jobj o => !o.isEmpty

/-! ### Python string primitives

All string helpers are defined through the underlying character list, so
that list lemmas apply directly.  Python strings are sequences of code
points and `len`/slicing are code-point operations, exactly as for
`List Char`. -/

/-- The whitespace characters `str.strip` removes (ASCII fragment). -/
def isPyWs (c : Char) : Bool :=
  c == ' ' || c == '\t' || c == '\n' || c == '\r' || c == '\x0b' || c == '\x0c'

/-- Python `str.strip()` on a character list. -/
def pyStripList (l : List Char) : List Char :=
  ((l.dropWhile isPyWs).reverse.dropWhile isPyWs).reverse

/-- Python `str.strip()`. -/
def pyStrip (s : String) : String := ⟨pyStripList s.data⟩

/-- Python `str.rstrip()`. -/
def pyRstrip (s : String) : String := ⟨(s.data.reverse.dropWhile isPyWs).reverse⟩

/-- Python `str.lower()` (ASCII fragment, which is all the plugin compares). -/
def pyLower (s : String) : String := ⟨s.data.map Char.toLower⟩

/-- Python `s.replace("\n", " ")`. -/
def pyReplaceNlSpace (s : String) : String :=
  ⟨s.data.map (fun c => if c == '\n' then ' ' else c)⟩

/-- Python `s[:n]` for `n ≥ 0`. -/
def pyTake (s : String) (n : Nat) : String := ⟨s.data.take n⟩

/-- Python `s[:3]` used for 3-letter weekday abbreviations. -/
def pyTake3 (s : String) : String := pyTake s 3

/-- Python `len(s)` (number of code points). -/
def pyLen (s : String) : Nat := s.data.length

/-! ### Python numeric literal parsing (`int(text)`, `float(text)`) -/

def digitVal (c : Char) : Nat := c.toNat - '0'.toNat

/-- A digit group as accepted inside Python numeric literals: non-empty,
decimal digits with single underscores allowed strictly between digits. -/
def validDigitsU (l : List Char) : Bool :=
  match l with
  | [] => false
  | c :: _ =>
    c.isDigit &&
    (match l.getLast? with | some d => d.isDigit | none => false) &&
    l.all (fun c => c.isDigit || c == '_') &&
    (l.zip l.tail).all (fun p => !(p.1 == '_' && p.2 == '_'))

/-- Numeric value of a digit group (underscores skipped). -/
def digitsUVal (l : List Char) : Nat :=
  (l.filter Char.isDigit).foldl (fun a c => a * 10 + digitVal c) 0

/-- The digit group parser: `some` value iff the group is valid. -/
def parseDigitsU (l : List Char) : Option Nat :=
  if validDigitsU l then some (digitsUVal l) else none

/-- Python `int(text)` on already-stripped text: optional sign followed by
a digit group.  (Non-ASCII decimal digits are outside the model.) -/
def parsePyInt (s : String) : Option Int :=
  match s.data with
  | '+' :: rest => (parseDigitsU rest).map (fun n => (n : Int))
  | '-' :: rest => (parseDigitsU rest).map (fun n => -(n : Int))
  | rest => (parseDigitsU rest).map (fun n => (n : Int))

/-- Split a character list at the first occurrence of a separator
satisfying `p`; `none` if absent. -/
def splitFirst (p : Char → Bool) : List Char → Option (List Char × List Char)
  | [] => none
  | c :: cs =>
    if p c then some ([], cs)
    else (splitFirst p cs).map (fun r => (c :: r.1, r.2))

/-- Mantissa of a Python float literal: `digits`, `digits.`, `digits.digits`
or `.digits`, returned as an exact rational. -/
def parseMantissa (l : List Char) : Option ℚ :=
  match splitFirst (fun c => c == '.') l with
  | none => (parseDigitsU l).map (fun n => (n : ℚ))
  | some (ip, fp) =>
    match ip, fp with
    | [], [] => none
    | [], fp =>
      (parseDigitsU fp).map (fun n => (n : ℚ) / (10 : ℚ) ^ (fp.filter Char.isDigit).length)
    | ip, [] => (parseDigitsU ip).map (fun n => (n : ℚ))
    | ip, fp =>
      match parseDigitsU ip, parseDigitsU fp with
      | some i, some f => some ((i : ℚ) + (f : ℚ) / (10 : ℚ) ^ (fp.filter Char.isDigit).length)
      | _, _ => none

/-- Signed exponent of a Python float literal. -/
def parseExp (l : List Char) : Option Int :=
  match l with
  | '+' :: rest => (parseDigitsU rest).map (fun n => (n : Int))
  | '-' :: rest => (parseDigitsU rest).map (fun n => -(n : Int))
  | rest => (parseDigitsU rest).map (fun n => (n : Int))

/-- Python `float(text)` on already-stripped text, for finite decimal
literals (`inf`/`nan` are outside the rational model). -/
def parsePyFloat (s : String) : Option ℚ :=
  let core : List Char → Option ℚ := fun l =>
    match splitFirst (fun c => c == 'e' || c == 'E') l with
    | none => parseMantissa l
    | some (m, e) =>
      match parseMantissa m, parseExp e with
      | some q, some x => some (q * (10 : ℚ) ^ x)
      | _, _ => none
  match s.data with
  | '+' :: rest => core rest
  | '-' :: rest => (core rest).map Neg.neg
  | rest => core rest

/-- Python `int(x)` on a float: truncation toward zero. -/
def ratTrunc (q : ℚ) : Int := Int.tdiv q.num q.den

/-! ### `str()` of a value

Exact for `None`, booleans, ints and strings — the cases whose rendering
the plugin's string comparisons actually distinguish.  Floats and
containers get a faithful-shape rendering (containers start with their
opening bracket, floats contain a `.`); CPython's shortest-round-trip
float repr and repr escaping are outside the model. -/

def pyFloatStr (q : ℚ) : String :=
  if q.den = 1 then toString q.num ++ ".0" else toString q.num ++ "/" ++ toString q.den

mutual

/-- Python `repr` of a value inside a container: strings get quoted, everything
else renders as at top level. -/
def pyStrAtom : JVal → String
  | .jnull => "None"
  | .jbool true => "True"
  | .jbool false => "False"
  | .jint n => toString n
  | .jfloat q => pyFloatStr q
  | .jstr s => "\x27" ++ s ++ "\x27"
  | .jlist xs => "[" ++ pyStrInList xs ++ "]"
  | .jobj o => "\x7b" ++ pyStrInObj o ++ "\x7d"

def pyStrInList : List JVal → String
  | [] => ""
  | [x] => pyStrAtom x
  | x :: xs => pyStrAtom x ++ ", " ++ pyStrInList xs

def pyStrInObj : List (String × JVal) → String
  | [] => ""
  | [(k, v)] => "\x27" ++ k ++ "\x27: " ++ pyStrAtom v
  | (k, v) :: xs => "\x27" ++ k ++ "\x27: " ++ pyStrAtom v ++ ", " ++ pyStrInObj xs

end

def pyStr : JVal → String
  | .jnull => "None"
  | .jbool true => "True"
  | .jbool false => "False"
  | .jint n => toString n
  | .jfloat q => pyFloatStr q
  | .jstr s => s
  | .jlist xs => "[" ++ pyStrInList xs ++ "]"
  | .jobj o => "\x7b" ++ pyStrInObj o ++ "\x7d"

/-- Python `str(x or "")`: the string of `x` when `x` is truthy, else `""`. -/
def pyStrOrEmpty (v : JVal) : String :=
  if pyTruthy v then pyStr v else ""

/-! ### `BangumiPlugin._to_int` and `BangumiPlugin._to_float`

`main.py` lines 77–109.  Note `isinstance(True, int)` holds in Python, so
booleans take the `int` branch with values 1/0. -/

def to_int : JVal → Option Int
  | .jnull => none
  | .jbool b => some (if b then 1 else 0)
  | .jint n => some n
  | .jfloat q => some (ratTrunc q)
  | .jstr s =>
    let text := pyStrip s
    if text = "" then none else parsePyInt text
  | .jlist _ => none
  | .jobj _ => none

def to_float : JVal → Option ℚ
  | .jnull => none
  | .jbool b => some (if b then 1 else 0)
  | .jint n => some (n : ℚ)
  | .jfloat q => some q
  | .jstr s =>
    let text := pyStrip s
    if text = "" then none else parsePyFloat text
  | .jlist _ => none
  | .jobj _ => none

/-! ### Dates

A `datetime.date` is represented by its `toordinal()` value.  The ISO
parse below follows CPython `datetime._ymd2ord` for the conversion. -/

/-- Tests for a leap year: `True` (CPython `datetime._is_leap`). -/
def isLeap (y : Int) : Bool := y % 4 == 0 && (y % 100 != 0 || y % 400 == 0)

/-- Days in a month (CPython `datetime._days_in_month`). -/
def daysInMonth (y m : Int) : Int :=
  if m == 2 then (if isLeap y then 29 else 28)
  else if m == 4 || m == 6 || m == 9 || m == 11 then 30
  else 31

/-- Days in the months before month `m` of a common year
(CPython `_DAYS_BEFORE_MONTH`). -/
def daysBeforeMonth (m : Int) : Int :=
  if m == 1 then 0 else if m == 2 then 31 else if m == 3 then 59
  else if m == 4 then 90 else if m == 5 then 120 else if m == 6 then 151
  else if m == 7 then 181 else if m == 8 then 212 else if m == 9 then 243
  else if m == 10 then 273 else if m == 11 then 304 else 334

/-- Embeds `date(y, m, d).toordinal()` (CPython `datetime._ymd2ord`). -/
def ymd2ord (y m d : Int) : Int :=
  let py := y - 1
  py * 365 + py / 4 - py / 100 + py / 400 +
    daysBeforeMonth m + (if 2 < m && isLeap y then 1 else 0) + d

/-- Embeds `date.isoweekday()`: CPython computes `self.toordinal() % 7 or 7`. -/
def ordIsoweekday (o : Int) : Int :=
  if o % 7 == 0 then 7 else o % 7

/-- Embeds `date.fromisoformat` for the `YYYY-MM-DD` layout, returning the
ordinal; `none` models the `ValueError` on any other input. -/
def dateFromIso (s : String) : Option Int :=
  match s.data with
  | [y1, y2, y3, y4, '-', m1, m2, '-', d1, d2] =>
    if y1.isDigit && y2.isDigit && y3.isDigit && y4.isDigit &&
       m1.isDigit && m2.isDigit && d1.isDigit && d2.isDigit then
      let y : Int := (digitsUVal [y1, y2, y3, y4] : Nat)
      let m : Int := (digitsUVal [m1, m2] : Nat)
      let d : Int := (digitsUVal [d1, d2] : Nat)
      if 1 ≤ y && 1 ≤ m && m ≤ 12 && 1 ≤ d && d ≤ daysInMonth y m then
        some (ymd2ord y m d)
      else none
    else none
  | _ => none

/-! ### Weekday tables and `_extract_weekday_id` (`main.py` 24–51, 278–298) -/

def WEEKDAY_CN_MAP : List (Int × String) :=
  [(1, "星期一"), (2, "星期二"), (3, "星期三"), (4, "星期四"),
   (5, "星期五"), (6, "星期六"), (7, "星期日")]

def WEEKDAY_EN_MAP : List (Int × String) :=
  [(1, "monday"), (2, "tuesday"), (3, "wednesday"), (4, "thursday"),
   (5, "friday"), (6, "saturday"), (7, "sunday")]

/-- Embeds `_extract_weekday_id`: numeric id first (membership in the CN map's
keys, i.e. 1..7), then exact Chinese name, then English name (full or
3-letter abbreviation, lower-cased). -/
def extract_weekday_id (day : JObj) : Option Int :=
  match jgetPy day "weekday" with
  | .jobj weekday =>
    let rawId := to_int (jgetPy weekday "id")
    match rawId with
    | some n =>
      if (WEEKDAY_CN_MAP.map Prod.fst).contains n then some n
      else extract_weekday_id_names weekday
    | none => extract_weekday_id_names weekday
  | _ => none
where
  /-- The CN-name and EN-name fallback loops of `_extract_weekday_id`. -/
  extract_weekday_id_names (weekday : JObj) : Option Int :=
    let weekdayCn := pyStrip (pyStr ((jget? weekday "cn").getD (.jstr "")))
    let weekdayEn := pyLower (pyStrip (pyStr ((jget? weekday "en").getD (.jstr ""))))
    match (WEEKDAY_CN_MAP.find? (fun p => weekdayCn == p.2)).map Prod.fst with
    | some wid => some wid
    | none =>
      (WEEKDAY_EN_MAP.find? (fun p =>
        weekdayEn == p.2 || weekdayEn == pyTake3 p.2)).map Prod.fst

/-- Embeds `_extract_day_date`: `str(day.get("date", ""))`, stripped, parsed as an
ISO date; empty or unparseable yields `None`. -/
def extract_day_date (day : JObj) : Option Int :=
  let raw := pyStrip (pyStr (match jget? day "date" with
    | some v => v
    | none => .jstr ""))
  if raw = "" then none else dateFromIso raw

/-! ### Day selection (`main.py` 310–366) -/

/-- Python `max(a :: l, key=f)`: scans left to right and replaces the
current best only on a strictly greater key, hence returns the first
element attaining the maximal key. -/
def pyMaxBy (f : α → Int) (a : α) (l : List α) : α :=
  l.foldl (fun cur x => if f cur < f x then x else cur) a

/-- Python `min(a :: l, key=f)`: dually, the first element attaining the
minimal key. -/
def pyMinBy (f : α → Int) (a : α) (l : List α) : α :=
  l.foldl (fun cur x => if f x < f cur then x else cur) a

/-- The `candidates` list of `_select_by_weekday`. -/
def weekday_candidates (calendar : List JObj) (target : Int) : List JObj :=
  calendar.filter (fun day => extract_weekday_id day == some target)

/-- The `dated_candidates` list of `_select_by_weekday`: candidates paired
with their parsed date, in encounter order. -/
def dated_candidates (candidates : List JObj) : List (JObj × Int) :=
  candidates.filterMap (fun day => (extract_day_date day).map (fun p => (day, p)))

/-- Embeds `_select_by_weekday(calendar, target_weekday_id, base_date)`. -/
def select_by_weekday (calendar : List JObj) (target : Int) (base : Int) :
    Option JObj :=
  let candidates := weekday_candidates calendar target
  if candidates.isEmpty then none
  else
    let dated := dated_candidates candidates
    if dated.isEmpty then candidates.head?
    else
      let past_or_today := dated.filter (fun x => decide (x.2 ≤ base))
      match past_or_today with
      | p :: ps => some (pyMaxBy (fun x => x.2) p ps).1
      | [] =>
        match dated with
        | d :: ds => some (pyMinBy (fun x => x.2) d ds).1
        | [] => none

/-- The tail of `_select_today`: the date-equality loop (first bucket
whose parsed date equals today) and the final `calendar[0]` fallback. -/
def select_today_fallback (calendar : List JObj) (today : Int) : Option JObj :=
  match calendar.find? (fun day => extract_day_date day == some today) with
  | some d => some d
  | none => calendar.head?

/-- Embeds `_select_today(calendar)`.  `today` is the ordinal of
`datetime.now(ZoneInfo("Asia/Shanghai")).date()`; the weekday id is
derived from the same instant, as in the source.  The source's
`if selected:` tests dict truthiness, modelled by `pyTruthy ∘ .jobj`. -/
def select_today (calendar : List JObj) (today : Int) : Option JObj :=
  if calendar.isEmpty then none
  else
    let todayWeekdayId := ordIsoweekday today
    let selected := select_by_weekday calendar todayWeekdayId today
    match selected with
    | some d =>
      if pyTruthy (.jobj d) then some d
      else select_today_fallback calendar today
    | none => select_today_fallback calendar today

/-- Embeds `_latest_weekday_date(base_date, weekday_id)` on ordinals:
`timedelta(days=·)` subtraction is ordinal subtraction. -/
def latest_weekday_date (base : Int) (weekdayId : Int) : Int :=
  let delta := (ordIsoweekday base - weekdayId) % 7
  base - delta

/-! ### Rating, url, cover, tags, summary helpers (`main.py` 368–460) -/

/-- Embeds `_format_rating`. -/
def format_rating (item : JObj) : String :=
  match jgetPy item "rating" with
  | .jobj rating =>
    let score := jgetPy rating "score"
    let total := jgetPy rating "total"
    match score with
    | .jnull => "暂无评分"
    | _ =>
      match total with
      | .jnull => pyStr score
      | _ => pyStr score ++ " (" ++ pyStr total ++ " 人评分)"
  | _ => "暂无评分"

/-- Embeds `_get_rating_total`. -/
def get_rating_total (item : JObj) : Int :=
  match jgetPy item "rating" with
  | .jobj rating => (to_int (jgetPy rating "total")).getD 0
  | _ => 0

/-- Round a rational to the nearest integer, ties to even (the rounding
CPython's `"%.1f"` applies to the scaled value). -/
def roundHalfEven (q : ℚ) : Int :=
  let f : Int := q.num / q.den
  let r : ℚ := q - (f : ℚ)
  if r < 1/2 then f
  else if 1/2 < r then f + 1
  else if f % 2 == 0 then f else f + 1

/-- Python `f"{x:.1f}"` for a (finite) float `x`. -/
def formatFixed1 (q : ℚ) : String :=
  let n := roundHalfEven (q * 10)
  let sign := if q < 0 then "-" else ""
  sign ++ toString (n.natAbs / 10) ++ "." ++ toString (n.natAbs % 10)

/-- Embeds `_get_rating_score`. -/
def get_rating_score (item : JObj) : String :=
  match jgetPy item "rating" with
  | .jobj rating =>
    match to_float (jgetPy rating "score") with
    | some score => formatFixed1 score
    | none => "0.0"
  | _ => "0.0"

/-- Embeds `_normalize_url`. -/
def normalize_url (url : String) : String :=
  let val := pyStrip url
  if val = "" then ""
  else match val.data with
    | '/' :: '/' :: _ => "https:" ++ val
    | _ => val

/-- Embeds `_build_subject_url`. -/
def build_subject_url (item : JObj) : String :=
  let direct := normalize_url (pyStrOrEmpty (jgetPy item "url"))
  if direct ≠ "" then direct
  else
    match to_int (jgetPy item "id") with
    | none => "无链接"
    | some subjectId => "https://bgm.tv/subject/" ++ toString subjectId

/-- The key-priority loop of `_get_cover_url`. -/
def cover_loop (images : JObj) : List String → String
  | [] => ""
  | k :: ks =>
    let cover := jgetPy images k
    if pyTruthy cover then
      let normalized := normalize_url (pyStr cover)
      if normalized ≠ "" then normalized else cover_loop images ks
    else cover_loop images ks

/-- Embeds `_get_cover_url`. -/
def get_cover_url (item : JObj) : String :=
  match jgetPy item "images" with
  | .jobj images => cover_loop images ["common", "large", "medium", "small", "grid"]
  | _ => ""

/-- The accumulation loop of `_get_tags`: append non-empty names and stop
once `limit` names are collected. -/
def tags_loop (limit : Nat) (count : Nat) : List JVal → List String
  | [] => []
  | t :: ts =>
    let name := pyStrip (match t with
      | .jobj o => pyStrOrEmpty (jgetPy o "name")
      | v => pyStr v)
    if name = "" then tags_loop limit count ts
    else if limit ≤ count + 1 then [name]
    else name :: tags_loop limit (count + 1) ts

/-- Embeds `_get_tags(item, limit)`. -/
def get_tags (item : JObj) (limit : Nat := 6) : List String :=
  match jgetPy item "tags" with
  | .jlist tags => tags_loop limit 0 tags
  | _ => []

/-- The first line of `_safe_summary`:
`str(item.get("summary") or "").strip().replace("\n", " ")`. -/
def clean_summary (item : JObj) : String :=
  pyReplaceNlSpace (pyStrip (pyStrOrEmpty (jgetPy item "summary")))

/-- Embeds `_safe_summary(item, limit)`: strip, flatten newlines, truncate with
an ellipsis after right-stripping the cut prefix. -/
def safe_summary (item : JObj) (limit : Nat := 100) : String :=
  let summary := clean_summary item
  if summary = "" then ""
  else if pyLen summary ≤ limit then summary
  else pyRstrip (pyTake summary limit) ++ "..."

/-! ### `_build_render_items` (`main.py` 462–494) -/

/-- The dict produced for one rendered entry. -/
structure RenderItem where
  rank : Nat
  subject_id : Int
  title : String
  original_title : String
  url : String
  rating_text : String
  rating_score : String
  rating_total : Int
  cover : String
  tags : List String
  summary : String

/-- The body of the `for index, item in enumerate(source_items, start=1)`
loop. -/
def render_one (index : Nat) (item : JObj) : RenderItem :=
  let original_title := pyStrip (pyStrOrEmpty (jgetPy item "name"))
  let display_title := pyStrip (
    if pyTruthy (jgetPy item "name_cn") then pyStr (jgetPy item "name_cn")
    else if original_title ≠ "" then original_title
    else "未命名条目")
  { rank := index
    subject_id :=
      match to_int (jgetPy item "id") with
      | some n => if n ≠ 0 then n else 0
      | none => 0
    title := display_title
    original_title := original_title
    url := build_subject_url item
    rating_text := format_rating item
    rating_score := get_rating_score item
    rating_total := get_rating_total item
    cover := get_cover_url item
    tags := get_tags item
    summary := safe_summary item }

/-- Tests `isinstance(item, dict)`, as a partial projection. -/
def asObj? : JVal → Option JObj
  | .jobj o => some o
  | _ => none

/-- The `source_items` list: the dict entries, sorted stably by descending
rating total when requested.  CPython's `sorted(..., reverse=True)` is the
stable descending sort, which is unique for a total preorder, so any
stable sorting algorithm along `key b ≤ key a` is extensionally the same;
we use insertion sort, which is also stable. -/
def source_items (items : List JVal) (sort_by_rating_total : Bool) : List JObj :=
  let normalized := items.filterMap asObj?
  if sort_by_rating_total then
    normalized.insertionSort (fun a b => get_rating_total b ≤ get_rating_total a)
  else normalized

/-- Embeds `_build_render_items(items, sort_by_rating_total=...)`. -/
def build_render_items (items : List JVal) (sort_by_rating_total : Bool := true) :
    List RenderItem :=
  (List.enumFrom 1 (source_items items sort_by_rating_total)).map
    (fun p => render_one p.1 p.2)

/-! ### Response handling of the fetchers (`main.py` 111–136, 244–276)

The network transport is a collaborator; what the plugin itself decides is
a function of the HTTP status and the decoded body (`none` when the body
is not valid JSON).  `Except.error` carries the message of the
`RuntimeError` the plugin raises. -/

/-- Embeds `_fetch_calendar`, from the response downward. -/
def fetch_calendar (status : Nat) (payload : Option JVal) :
    Except String (List JObj) :=
  if status ≠ 200 then .error "Bangumi 接口返回非 200 状态码"
  else
    match payload with
    | none => .error "Bangumi 接口返回了无效 JSON"
    | some data =>
      match data with
      | .jlist items => .ok (items.filterMap asObj?)
      | _ => .error "Bangumi 接口返回数据结构异常"

/-- Embeds `_fetch_subject_detail`, from the response downward: 404 first, then
any other non-200, then JSON validity, then the dict-shape check. -/
def fetch_subject_detail (status : Nat) (payload : Option JVal) :
    Except String JObj :=
  if status = 404 then .error "未找到对应番剧，请检查 ID 是否正确。"
  else if status ≠ 200 then .error "Bangumi 详情接口返回非 200 状态码"
  else
    match payload with
    | none => .error "Bangumi 详情接口返回了无效 JSON"
    | some data =>
      match data with
      | .jobj o => .ok o
      | _ => .error "Bangumi 详情接口返回数据结构异常"

/-! ## General lemmas -/

/- Batteries seals the rational-number operations; re-open them locally so
that concrete witness computations reduce. -/
attribute [local semireducible] Rat.mul Rat.add Rat.sub Rat.inv Rat.ofScientific

theorem ordIsoweekday_eq (x : Int) : ordIsoweekday x = (x - 1) % 7 + 1 := by
  unfold ordIsoweekday
  split
  · rename_i h
    rw [beq_iff_eq] at h
    omega
  · rename_i h
    rw [beq_iff_eq] at h
    omega

theorem length_dropWhile_le (p : α → Bool) (l : List α) :
    (l.dropWhile p).length ≤ l.length := by
  induction l with
  | nil => simp
  | cons a as ih =>
    rw [List.dropWhile_cons]
    split
    · exact Nat.le_succ_of_le ih
    · exact Nat.le_refl _

theorem pyLen_pyRstrip_le (s : String) : pyLen (pyRstrip s) ≤ pyLen s := by
  unfold pyLen pyRstrip
  calc ((s.data.reverse.dropWhile isPyWs).reverse : List Char).length
      = (s.data.reverse.dropWhile isPyWs).length := List.length_reverse _
    _ ≤ s.data.reverse.length := length_dropWhile_le _ _
    _ = s.data.length := List.length_reverse _

theorem pyLen_pyTake_le (s : String) (n : Nat) : pyLen (pyTake s n) ≤ n := by
  unfold pyLen pyTake
  simp only [List.length_take]
  omega

/-- Python `max(key=f)` returns the first element attaining the maximal
key: the input splits around the result, everything before it has a
strictly smaller key, and nothing has a larger key. -/
theorem pyMaxBy_spec (f : α → Int) (a : α) (l : List α) :
    ∃ l1 l2, a :: l = l1 ++ pyMaxBy f a l :: l2 ∧
      (∀ y ∈ l1, f y < f (pyMaxBy f a l)) ∧
      (∀ y ∈ a :: l, f y ≤ f (pyMaxBy f a l)) := by
  induction l generalizing a with
  | nil =>
    refine ⟨[], [], rfl, by simp, ?_⟩
    intro y hy
    rw [List.mem_singleton.mp hy]
    exact le_refl _
  | cons x xs ih =>
    have hstep : pyMaxBy f a (x :: xs) = pyMaxBy f (if f a < f x then x else a) xs :=
      rfl
    by_cases hax : f a < f x
    · obtain ⟨l1, l2, hdec, hlt, hle⟩ := ih x
      rw [hstep, if_pos hax]
      have har : f a < f (pyMaxBy f x xs) := by
        cases l1 with
        | nil =>
          rw [List.nil_append] at hdec
          injection hdec with h1 h2
          rw [← h1]
          exact hax
        | cons b l1' =>
          rw [List.cons_append] at hdec
          injection hdec with h1 h2
          exact lt_trans (h1 ▸ hax) (hlt b (List.mem_cons_self b l1'))
      refine ⟨a :: l1, l2, ?_, ?_, ?_⟩
      · rw [List.cons_append, ← hdec]
      · intro y hy
        rcases List.mem_cons.mp hy with rfl | hy'
        · exact har
        · exact hlt y hy'
      · intro y hy
        rcases List.mem_cons.mp hy with rfl | hy'
        · exact le_of_lt har
        · exact hle y hy'
    · obtain ⟨l1, l2, hdec, hlt, hle⟩ := ih a
      rw [hstep, if_neg hax]
      cases l1 with
      | nil =>
        rw [List.nil_append] at hdec
        injection hdec with h1 h2
        refine ⟨[], x :: xs, by rw [List.nil_append, ← h1], by simp, ?_⟩
        intro y hy
        rcases List.mem_cons.mp hy with rfl | hy'
        · rw [← h1]
        · rcases List.mem_cons.mp hy' with rfl | hy''
          · rw [← h1]
            exact le_of_not_lt hax
          · exact hle y (List.mem_cons_of_mem a hy'')
      | cons b l1' =>
        rw [List.cons_append] at hdec
        injection hdec with h1 h2
        subst h1
        have hbr : f a < f (pyMaxBy f a xs) := hlt a (List.mem_cons_self a l1')
        refine ⟨a :: x :: l1', l2, ?_, ?_, ?_⟩
        · rw [List.cons_append, List.cons_append, ← h2]
        · intro y hy
          rcases List.mem_cons.mp hy with rfl | hy'
          · exact hbr
          · rcases List.mem_cons.mp hy' with rfl | hy''
            · exact lt_of_le_of_lt (le_of_not_lt hax) hbr
            · exact hlt y (List.mem_cons_of_mem a hy'')
        · intro y hy
          rcases List.mem_cons.mp hy with rfl | hy'
          · exact hle y (List.mem_cons_self y xs)
          · rcases List.mem_cons.mp hy' with rfl | hy''
            · exact le_trans (le_of_not_lt hax) (hle a (List.mem_cons_self a xs))
            · exact hle y (List.mem_cons_of_mem a hy'')

theorem pyMinBy_eq_pyMaxBy_neg (f : α → Int) (a : α) (l : List α) :
    pyMinBy f a l = pyMaxBy (fun y => -(f y)) a l := by
  unfold pyMinBy pyMaxBy
  have h : (fun (cur x : α) => if f x < f cur then x else cur) =
      (fun (cur x : α) => if -(f cur) < -(f x) then x else cur) := by
    funext cur x
    have hiff : (f x < f cur) ↔ (-(f cur) < -(f x)) := by omega
    exact if_congr hiff rfl rfl
  rw [h]

/-- Python `min(key=f)` dually returns the first element attaining the
minimal key. -/
theorem pyMinBy_spec (f : α → Int) (a : α) (l : List α) :
    ∃ l1 l2, a :: l = l1 ++ pyMinBy f a l :: l2 ∧
      (∀ y ∈ l1, f (pyMinBy f a l) < f y) ∧
      (∀ y ∈ a :: l, f (pyMinBy f a l) ≤ f y) := by
  rw [pyMinBy_eq_pyMaxBy_neg]
  obtain ⟨l1, l2, hdec, hlt, hle⟩ := pyMaxBy_spec (fun y => -(f y)) a l
  refine ⟨l1, l2, hdec, ?_, ?_⟩
  · intro y hy
    have := hlt y hy
    omega
  · intro y hy
    have := hle y hy
    omega

/-- Splitting an output of `filterMap` around an element locates its
preimage in the input, splitting the input accordingly. -/
theorem filterMap_eq_append_cons {g : α → Option β} :
    ∀ {l : List α} {ys1 : List β} {y : β} {ys2 : List β},
    l.filterMap g = ys1 ++ y :: ys2 →
    ∃ xs1 x xs2, l = xs1 ++ x :: xs2 ∧ g x = some y ∧
      xs1.filterMap g = ys1 ∧ xs2.filterMap g = ys2 := by
  intro l
  induction l with
  | nil =>
    intro ys1 y ys2 h
    rw [List.filterMap_nil] at h
    obtain ⟨-, h2⟩ := List.append_eq_nil.mp h.symm
    cases h2
  | cons a as ih =>
    intro ys1 y ys2 h
    rw [List.filterMap_cons] at h
    cases hg : g a with
    | none =>
      rw [hg] at h
      obtain ⟨xs1, x, xs2, rfl, hgx, h1, h2⟩ := ih h
      exact ⟨a :: xs1, x, xs2, rfl, hgx, by rw [List.filterMap_cons, hg, h1], h2⟩
    | some b =>
      rw [hg] at h
      cases ys1 with
      | nil =>
        rw [List.nil_append] at h
        have hb : b = y := (List.cons.injEq .. ▸ h).1
        have ht : as.filterMap g = ys2 := (List.cons.injEq .. ▸ h).2
        exact ⟨[], a, as, rfl, hb ▸ hg, rfl, ht⟩
      | cons c ys1' =>
        rw [List.cons_append] at h
        have hb : b = c := (List.cons.injEq .. ▸ h).1
        have ht : as.filterMap g = ys1' ++ y :: ys2 := (List.cons.injEq .. ▸ h).2
        obtain ⟨xs1, x, xs2, rfl, hgx, h1, h2⟩ := ih ht
        exact ⟨a :: xs1, x, xs2, rfl, hgx,
          by rw [List.filterMap_cons, hg, h1, hb], h2⟩

/-! ## C10: `_latest_weekday_date` -/

/-- C10: for every base date and weekday id in 1..7, `_latest_weekday_date`
returns the unique date that is on-or-before the base date, less than 7
days before it, and whose ISO weekday equals the given id. -/
theorem latest_weekday_date_spec (base wid : Int) (h1 : 1 ≤ wid) (h7 : wid ≤ 7) :
    latest_weekday_date base wid ≤ base ∧
    base - latest_weekday_date base wid < 7 ∧
    ordIsoweekday (latest_weekday_date base wid) = wid ∧
    ∀ d : Int, d ≤ base → base - d < 7 → ordIsoweekday d = wid →
      d = latest_weekday_date base wid := by
  unfold latest_weekday_date
  simp only [ordIsoweekday_eq]
  refine ⟨by omega, by omega, by omega, ?_⟩
  intro d hd1 hd2 hd3
  omega

/-- Witness for C10 at a concrete base date and weekday id. -/
theorem latest_weekday_date_spec_witness :
    latest_weekday_date 739016 1 ≤ 739016 ∧
    739016 - latest_weekday_date 739016 1 < 7 ∧
    ordIsoweekday (latest_weekday_date 739016 1) = 1 ∧
    ∀ d : Int, d ≤ 739016 → 739016 - d < 7 → ordIsoweekday d = 1 →
      d = latest_weekday_date 739016 1 :=
  latest_weekday_date_spec 739016 1 (by decide) (by decide)

/-! ## C4: rating-total coercion -/

/-- C4: `_get_rating_total` returns the integer value of the rating's
`total` field for ints (Python booleans included, as `bool` is an `int`
subclass), floats (truncated toward zero) and int-parseable strings, and
0 for every other type, unparseable string, or absent rating/total. -/
theorem get_rating_total_spec (item : JObj) :
    (∀ rating, jgetPy item "rating" = .jobj rating →
      (∀ n, jgetPy rating "total" = .jint n → get_rating_total item = n) ∧
      (∀ b, jgetPy rating "total" = .jbool b →
        get_rating_total item = if b then 1 else 0) ∧
      (∀ q, jgetPy rating "total" = .jfloat q →
        get_rating_total item = ratTrunc q) ∧
      (∀ s, jgetPy rating "total" = .jstr s →
        get_rating_total item = (parsePyInt (pyStrip s)).getD 0) ∧
      (jgetPy rating "total" = .jnull → get_rating_total item = 0) ∧
      (∀ xs, jgetPy rating "total" = .jlist xs → get_rating_total item = 0) ∧
      (∀ o, jgetPy rating "total" = .jobj o → get_rating_total item = 0)) ∧
    ((∀ rating, jgetPy item "rating" ≠ .jobj rating) →
      get_rating_total item = 0) := by
  constructor
  · intro rating hr
    refine ⟨?_, ?_, ?_, ?_, ?_, ?_, ?_⟩ <;> intros <;>
      simp_all [get_rating_total, to_int]
    · rename_i s h
      by_cases hs : pyStrip s = ""
      · rw [hs]
        rfl
      · simp [hs]
  · intro h
    cases hr : jgetPy item "rating" <;> simp_all [get_rating_total]

/-- Witness for C4: the spec's concrete coercion examples, obtained by
applying `get_rating_total_spec`. -/
theorem get_rating_total_spec_witness :
    get_rating_total [("rating", .jobj [("total", .jstr "123")])] = 123 ∧
    get_rating_total [("rating", .jobj [("total", .jfloat (mkRat 459 10))])] = 45 ∧
    get_rating_total [("rating", .jobj [("total", .jstr "abc")])] = 0 ∧
    get_rating_total [] = 0 := by
  refine ⟨?_, ?_, ?_, ?_⟩
  · exact (((get_rating_total_spec [("rating", .jobj [("total", .jstr "123")])]).1
      [("total", .jstr "123")] rfl).2.2.2.1 "123" rfl).trans (by decide)
  · exact (((get_rating_total_spec
      [("rating", .jobj [("total", .jfloat (mkRat 459 10))])]).1
      [("total", .jfloat (mkRat 459 10))] rfl).2.2.1 (mkRat 459 10) rfl).trans (by decide)
  · exact (((get_rating_total_spec [("rating", .jobj [("total", .jstr "abc")])]).1
      [("total", .jstr "abc")] rfl).2.2.2.1 "abc" rfl).trans (by decide)
  · exact (get_rating_total_spec []).2 (by intro r h; cases h)

/-! ## C9: rating-score coercion and formatting -/

/-- C9: `_get_rating_score` parses the rating's `score` through the float
coercion and formats it with exactly one decimal digit, defaulting to
`"0.0"` when the score is absent or unparseable or the rating object is
missing. -/
theorem get_rating_score_spec (item : JObj) :
    (∀ rating, jgetPy item "rating" = .jobj rating →
      (∀ q, to_float (jgetPy rating "score") = some q →
        get_rating_score item = formatFixed1 q ∧
        ∃ m r : Nat,
          get_rating_score item =
            (if q < 0 then "-" else "") ++ toString m ++ "." ++ toString r ∧
          r < 10 ∧ (toString r).length = 1) ∧
      (to_float (jgetPy rating "score") = none →
        get_rating_score item = "0.0")) ∧
    ((∀ rating, jgetPy item "rating" ≠ .jobj rating) →
      get_rating_score item = "0.0") := by
  constructor
  · intro rating hr
    constructor
    · intro q hq
      have hval : get_rating_score item = formatFixed1 q := by
        simp [get_rating_score, hr, hq]
      refine ⟨hval, (roundHalfEven (q * 10)).natAbs / 10,
        (roundHalfEven (q * 10)).natAbs % 10, ?_, Nat.mod_lt _ (by omega), ?_⟩
      · rw [hval]
        rfl
      · have hlt : (roundHalfEven (q * 10)).natAbs % 10 < 10 :=
          Nat.mod_lt _ (by omega)
        revert hlt
        generalize (roundHalfEven (q * 10)).natAbs % 10 = r
        intro hlt
        interval_cases r <;> rfl
    · intro hq
      simp [get_rating_score, hr, hq]
  · intro h
    cases hr : jgetPy item "rating" <;> simp_all [get_rating_score]

/-- Witness for C9: the spec's concrete formatting examples, obtained by
applying `get_rating_score_spec`. -/
theorem get_rating_score_spec_witness :
    get_rating_score [("rating", .jobj [("score", .jint 8)])] = "8.0" ∧
    get_rating_score [("rating", .jobj [("score", .jstr "7.25")])] = "7.2" ∧
    get_rating_score [("rating", .jobj [])] = "0.0" ∧
    get_rating_score [] = "0.0" := by
  refine ⟨?_, ?_, ?_, ?_⟩
  · exact (((get_rating_score_spec [("rating", .jobj [("score", .jint 8)])]).1
      [("score", .jint 8)] rfl).1 8 rfl).1.trans (by decide)
  · exact (((get_rating_score_spec [("rating", .jobj [("score", .jstr "7.25")])]).1
      [("score", .jstr "7.25")] rfl).1 (mkRat 29 4) (by decide)).1.trans (by decide)
  · exact ((get_rating_score_spec [("rating", .jobj [])]).1 [] rfl).2 rfl
  · exact (get_rating_score_spec []).2 (by intro r h; cases h)

/-! ## C5: summary normalization and truncation -/

/-- C5: `_safe_summary` trims the summary and flattens newlines to spaces
(`clean_summary`), returns it unchanged when its length is at most the
limit, and otherwise truncates it at the limit, right-strips the cut
prefix, and appends an ellipsis, yielding at most `limit` characters
before the `"..."`. -/
theorem safe_summary_spec (item : JObj) (limit : Nat) :
    (pyLen (clean_summary item) ≤ limit →
      safe_summary item limit = clean_summary item) ∧
    (limit < pyLen (clean_summary item) →
      safe_summary item limit =
        pyRstrip (pyTake (clean_summary item) limit) ++ "..." ∧
      pyLen (pyRstrip (pyTake (clean_summary item) limit)) ≤ limit) := by
  constructor
  · intro hle
    by_cases h0 : clean_summary item = ""
    · simp [safe_summary, h0]
    · simp [safe_summary, h0, hle]
  · intro hgt
    have h0 : clean_summary item ≠ "" := by
      intro h
      have hz : pyLen "" = 0 := rfl
      rw [h] at hgt
      omega
    refine ⟨by simp [safe_summary, h0, Nat.not_le.mpr hgt], ?_⟩
    exact (pyLen_pyRstrip_le _).trans (pyLen_pyTake_le _ _)

set_option maxRecDepth 100000 in
/-- Witness for C5: a 150-character summary with limit 100 yields the
100-character prefix followed by `"..."`, 103 characters in all, obtained
by applying `safe_summary_spec`. -/
theorem safe_summary_spec_witness :
    safe_summary [("summary", .jstr (String.mk (List.replicate 150 'a')))] 100 =
      String.mk (List.replicate 100 'a') ++ "..." ∧
    pyLen (safe_summary [("summary", .jstr (String.mk (List.replicate 150 'a')))] 100) =
      103 := by
  have h := (safe_summary_spec
    [("summary", .jstr (String.mk (List.replicate 150 'a')))] 100).2 (by decide)
  exact ⟨h.1.trans (by decide), by rw [h.1]; decide⟩

/-! ## C7: calendar payload handling -/

theorem asObj?_eq_some {v : JVal} {o : JObj} : asObj? v = some o ↔ v = .jobj o := by
  cases v <;> simp [asObj?]

theorem map_jobj_filterMap_sublist (xs : List JVal) :
    ((xs.filterMap asObj?).map JVal.jobj).Sublist xs := by
  induction xs with
  | nil => simp
  | cons a as ih =>
    rw [List.filterMap_cons]
    cases h : asObj? a with
    | none => exact ih.cons a
    | some o =>
      obtain rfl : a = .jobj o := asObj?_eq_some.mp h
      simpa using ih.cons₂ (JVal.jobj o)

/-- C7: `_fetch_calendar` rejects any 200-response whose decoded payload
is not a JSON array, and on an array keeps exactly the object elements,
in order (a sublist of the input containing precisely the objects). -/
theorem fetch_calendar_spec (payload : JVal) :
    ((∀ xs, payload ≠ .jlist xs) →
      ∃ msg, fetch_calendar 200 (some payload) = .error msg) ∧
    (∀ xs, payload = .jlist xs →
      fetch_calendar 200 (some payload) = .ok (xs.filterMap asObj?) ∧
      ((xs.filterMap asObj?).map JVal.jobj).Sublist xs ∧
      (∀ o : JObj, o ∈ xs.filterMap asObj? ↔ JVal.jobj o ∈ xs)) := by
  constructor
  · intro h
    cases payload with
    | jlist xs => exact absurd rfl (h xs)
    | jnull => exact ⟨_, rfl⟩
    | jbool b => exact ⟨_, rfl⟩
    | jint n => exact ⟨_, rfl⟩
    | jfloat q => exact ⟨_, rfl⟩
    | jstr s => exact ⟨_, rfl⟩
    | jobj o => exact ⟨_, rfl⟩
  · rintro xs rfl
    refine ⟨rfl, map_jobj_filterMap_sublist xs, ?_⟩
    intro o
    simp [List.mem_filterMap, asObj?_eq_some]

/-- Witness for C7: a non-array payload errors; an array keeps its two
object elements, in order, and drops the rest; by application of
`fetch_calendar_spec`. -/
theorem fetch_calendar_spec_witness :
    (∃ msg, fetch_calendar 200 (some (.jstr "x")) = .error msg) ∧
    fetch_calendar 200
        (some (.jlist [.jobj [("a", .jint 1)], .jint 5, .jstr "y", .jobj []])) =
      .ok [[("a", .jint 1)], []] :=
  ⟨(fetch_calendar_spec (.jstr "x")).1 (fun _ h => JVal.noConfusion h),
   ((fetch_calendar_spec
      (.jlist [.jobj [("a", .jint 1)], .jint 5, .jstr "y", .jobj []])).2
      _ rfl).1⟩

/-! ## C8: subject-detail error discrimination -/

/-- C8: a 404 subject-detail response raises a dedicated not-found error,
different from the message of any other non-200 status, and a 200 response
whose payload is not an object raises the shape error. -/
theorem fetch_subject_detail_spec (status : Nat) (payload : Option JVal) :
    (status = 404 →
      fetch_subject_detail status payload = .error "未找到对应番剧，请检查 ID 是否正确。") ∧
    (status ≠ 404 → status ≠ 200 →
      fetch_subject_detail status payload = .error "Bangumi 详情接口返回非 200 状态码") ∧
    ("未找到对应番剧，请检查 ID 是否正确。" ≠ "Bangumi 详情接口返回非 200 状态码") ∧
    (∀ d, status = 200 → payload = some d → (∀ o, d ≠ .jobj o) →
      fetch_subject_detail status payload = .error "Bangumi 详情接口返回数据结构异常") := by
  refine ⟨?_, ?_, by decide, ?_⟩
  · rintro rfl
    rfl
  · intro h404 h200
    simp [fetch_subject_detail, h404, h200]
  · rintro d rfl rfl h
    cases d with
    | jobj o => exact absurd rfl (h o)
    | jnull => rfl
    | jbool b => rfl
    | jint n => rfl
    | jfloat q => rfl
    | jstr s => rfl
    | jlist xs => rfl

/-- Witness for C8: concrete 404, 500 and malformed-200 responses, by
application of `fetch_subject_detail_spec`. -/
theorem fetch_subject_detail_spec_witness :
    fetch_subject_detail 404 none = .error "未找到对应番剧，请检查 ID 是否正确。" ∧
    fetch_subject_detail 500 none = .error "Bangumi 详情接口返回非 200 状态码" ∧
    fetch_subject_detail 200 (some (.jlist [])) =
      .error "Bangumi 详情接口返回数据结构异常" :=
  ⟨(fetch_subject_detail_spec 404 none).1 rfl,
   (fetch_subject_detail_spec 500 none).2.1 (by decide) (by decide),
   (fetch_subject_detail_spec 200 (some (.jlist []))).2.2.2 (.jlist []) rfl rfl
     (fun o h => JVal.noConfusion h)⟩

/-! ## C3 and C6: `_build_render_items` -/

theorem render_one_rank (i : Nat) (o : JObj) : (render_one i o).rank = i := rfl

theorem render_one_rating_total (i : Nat) (o : JObj) :
    (render_one i o).rating_total = get_rating_total o := rfl

theorem render_one_url (i : Nat) (o : JObj) :
    (render_one i o).url = build_subject_url o := rfl

theorem build_subject_url_ne_empty (item : JObj) : build_subject_url item ≠ "" := by
  simp only [build_subject_url]
  by_cases hdirect : normalize_url (pyStrOrEmpty (jgetPy item "url")) ≠ ""
  · rw [if_pos hdirect]
    exact hdirect
  · rw [if_neg hdirect]
    cases hid : to_int (jgetPy item "id") with
    | none => decide
    | some n =>
      intro h
      rw [String.ext_iff, String.data_append] at h
      exact absurd (List.append_eq_nil.mp h).1 (by decide)

theorem build_render_items_map_rank (items : List JVal) (flag : Bool) :
    (build_render_items items flag).map RenderItem.rank =
      List.range' 1 (source_items items flag).length := by
  unfold build_render_items
  rw [List.map_map]
  have h : (RenderItem.rank ∘ fun p : Nat × JObj => render_one p.1 p.2) = Prod.fst :=
    funext fun p => rfl
  rw [h, List.enumFrom_map_fst]

theorem build_render_items_map_field (f : RenderItem → β) (g : JObj → β)
    (hfg : ∀ i o, f (render_one i o) = g o) (items : List JVal) (flag : Bool) :
    (build_render_items items flag).map f = (source_items items flag).map g := by
  unfold build_render_items
  rw [List.map_map]
  have h : (f ∘ fun p : Nat × JObj => render_one p.1 p.2) =
      (fun p : Nat × JObj => g p.2) := funext fun p => hfg p.1 p.2
  rw [h]
  have h2 : (fun p : Nat × JObj => g p.2) = g ∘ Prod.snd := rfl
  rw [h2, ← List.map_map, List.enumFrom_map_snd]

theorem mem_source_items {o : JObj} {items : List JVal} {flag : Bool}
    (h : o ∈ source_items items flag) : JVal.jobj o ∈ items := by
  have hmem : o ∈ items.filterMap asObj? := by
    simp only [source_items] at h
    cases flag with
    | true =>
      rw [if_pos rfl] at h
      exact (List.mem_insertionSort _).mp h
    | false =>
      rwa [if_neg (by decide)] at h
  obtain ⟨v, hv, ha⟩ := List.mem_filterMap.mp hmem
  obtain rfl := asObj?_eq_some.mp ha
  exact hv

theorem mem_build_render_items {r : RenderItem} {items : List JVal} {flag : Bool}
    (h : r ∈ build_render_items items flag) :
    ∃ i o, r = render_one i o ∧ o ∈ source_items items flag := by
  unfold build_render_items at h
  obtain ⟨p, hp, rfl⟩ := List.mem_map.mp h
  refine ⟨p.1, p.2, rfl, ?_⟩
  have := List.mem_map_of_mem Prod.snd hp
  rwa [List.enumFrom_map_snd] at this

/-- The input list refuting C3's non-negativity clause: a subject whose
rating total is the integer `-1`. -/
def negTotalItem : JVal := .jobj [("rating", .jobj [("total", .jint (-1))])]

/-- Counterexample to C3 as stated: with a source rating total of `-1`,
the produced `rating_total` is negative. -/
theorem build_render_items_nonneg_counterexample :
    ¬ (∀ r ∈ build_render_items [negTotalItem] true, 0 ≤ r.rating_total) := by
  decide

/-- C3 (amended): ranks are the dense sequence `1..N`; no `url` is empty;
each `rating_total` is the integer coercion of some source entry's rating
total — hence non-negative whenever no source entry coerces to a negative
integer (in particular whenever every source total is absent, unparseable,
or a non-negative number). -/
theorem build_render_items_invariants (items : List JVal) (flag : Bool) :
    (build_render_items items flag).map RenderItem.rank =
      List.range' 1 (build_render_items items flag).length ∧
    (∀ r ∈ build_render_items items flag, r.url ≠ "") ∧
    (∀ r ∈ build_render_items items flag, ∃ o : JObj,
      JVal.jobj o ∈ items ∧ r.rating_total = get_rating_total o) ∧
    ((∀ o : JObj, JVal.jobj o ∈ items → 0 ≤ get_rating_total o) →
      ∀ r ∈ build_render_items items flag, 0 ≤ r.rating_total) := by
  have hsrc : ∀ r ∈ build_render_items items flag, ∃ o : JObj,
      JVal.jobj o ∈ items ∧ r.rating_total = get_rating_total o := by
    intro r hr
    obtain ⟨i, o, rfl, ho⟩ := mem_build_render_items hr
    exact ⟨o, mem_source_items ho, render_one_rating_total i o⟩
  refine ⟨?_, ?_, hsrc, ?_⟩
  · have hlen : (build_render_items items flag).length =
        (source_items items flag).length := by
      unfold build_render_items
      simp
    rw [hlen, build_render_items_map_rank]
  · intro r hr
    obtain ⟨i, o, rfl, _⟩ := mem_build_render_items hr
    rw [render_one_url]
    exact build_subject_url_ne_empty o
  · intro hpos r hr
    obtain ⟨o, ho, he⟩ := hsrc r hr
    rw [he]
    exact hpos o ho

/-- Witness for C3 (amended) on a three-entry list with string, float and
absent totals, by application of `build_render_items_invariants`. -/
theorem build_render_items_invariants_witness :
    (build_render_items [.jobj [("rating", .jobj [("total", .jstr "7")])],
        .jobj [("rating", .jobj [("total", .jfloat (mkRat 45 2))])],
        .jobj [("id", .jint 9)]] true).map RenderItem.rank = [1, 2, 3] ∧
    (∀ r ∈ build_render_items [.jobj [("rating", .jobj [("total", .jstr "7")])],
        .jobj [("rating", .jobj [("total", .jfloat (mkRat 45 2))])],
        .jobj [("id", .jint 9)]] true, 0 ≤ r.rating_total) := by
  have h := build_render_items_invariants
    [.jobj [("rating", .jobj [("total", .jstr "7")])],
     .jobj [("rating", .jobj [("total", .jfloat (mkRat 45 2))])],
     .jobj [("id", .jint 9)]] true
  refine ⟨h.1.trans (by decide), h.2.2.2 ?_⟩
  intro o ho
  simp only [List.mem_cons, List.not_mem_nil, or_false, JVal.jobj.injEq] at ho
  rcases ho with rfl | rfl | rfl <;> decide

/-- C6: with sorting enabled, `_build_render_items` lays the dict entries
out in descending order of coerced rating total — a permutation of the
filtered input that is sorted and stable (any ≥-ordered sublist of the
input survives as a sublist of the output, so ties keep their input
order); with sorting disabled (the search path) the filtered input order
is kept as-is. -/
theorem build_render_items_sort_spec (items : List JVal) :
    ((build_render_items items true).map RenderItem.rating_total =
      (source_items items true).map get_rating_total) ∧
    (source_items items true).Perm (items.filterMap asObj?) ∧
    ((source_items items true).map get_rating_total).Pairwise (fun a b => b ≤ a) ∧
    (∀ c : List JObj,
      c.Pairwise (fun a b => get_rating_total b ≤ get_rating_total a) →
      c.Sublist (items.filterMap asObj?) →
      c.Sublist (source_items items true)) ∧
    (source_items items false = items.filterMap asObj?) ∧
    ((build_render_items items false).map RenderItem.rating_total =
      (items.filterMap asObj?).map get_rating_total) := by
  have hs : source_items items true =
      (items.filterMap asObj?).insertionSort
        (fun a b => get_rating_total b ≤ get_rating_total a) := by
    simp [source_items]
  have hns : source_items items false = items.filterMap asObj? := by
    simp [source_items]
  haveI : IsTotal JObj (fun a b => get_rating_total b ≤ get_rating_total a) :=
    ⟨fun a b => le_total (get_rating_total b) (get_rating_total a)⟩
  haveI : IsTrans JObj (fun a b => get_rating_total b ≤ get_rating_total a) :=
    ⟨fun _ _ _ h1 h2 => le_trans h2 h1⟩
  refine ⟨build_render_items_map_field _ _ render_one_rating_total items true,
    ?_, ?_, ?_, hns, ?_⟩
  · rw [hs]
    exact List.perm_insertionSort _ _
  · rw [List.pairwise_map, hs]
    exact List.sorted_insertionSort _ _
  · intro c hc hsub
    rw [hs]
    exact List.sublist_insertionSort hc hsub
  · rw [build_render_items_map_field _ _ render_one_rating_total items false, hns]

/-- A subject stub with an id and an integer rating total, for the C6
witness. -/
def exRatingItem (i t : Int) : JObj :=
  [("id", .jint i), ("rating", .jobj [("total", .jint t)])]

/-- Witness for C6: rating totals `[5, 50, 5, 0]` sort to
`[50, 5(first), 5(second), 0]` (the ids expose the tie order), search
results keep input order, and the two tied entries survive as a sublist of
the sorted list by application of `build_render_items_sort_spec`. -/
theorem build_render_items_sort_spec_witness :
    (build_render_items [.jobj (exRatingItem 1 5), .jobj (exRatingItem 2 50),
        .jobj (exRatingItem 3 5), .jobj (exRatingItem 4 0)] true).map
      (fun r => (r.subject_id, r.rating_total)) =
      [(2, 50), (1, 5), (3, 5), (4, 0)] ∧
    (build_render_items [.jobj (exRatingItem 1 5), .jobj (exRatingItem 2 50),
        .jobj (exRatingItem 3 5), .jobj (exRatingItem 4 0)] false).map
      (fun r => (r.subject_id, r.rating_total)) =
      [(1, 5), (2, 50), (3, 5), (4, 0)] ∧
    [exRatingItem 1 5, exRatingItem 3 5].Sublist
      (source_items [.jobj (exRatingItem 1 5), .jobj (exRatingItem 2 50),
        .jobj (exRatingItem 3 5), .jobj (exRatingItem 4 0)] true) := by
  refine ⟨by decide, by decide, ?_⟩
  refine (build_render_items_sort_spec _).2.2.2.1 _ (by decide) ?_
  exact (((List.nil_sublist [exRatingItem 4 0]).cons₂
    (exRatingItem 3 5)).cons (exRatingItem 2 50)).cons₂ (exRatingItem 1 5)

/-! ## C1: `_select_by_weekday` -/

theorem mem_dated_candidates {cands : List JObj} {d : JObj} {k : Int} :
    (d, k) ∈ dated_candidates cands ↔ d ∈ cands ∧ extract_day_date d = some k := by
  unfold dated_candidates
  rw [List.mem_filterMap]
  constructor
  · rintro ⟨a, ha, hmap⟩
    rw [Option.map_eq_some'] at hmap
    obtain ⟨j, hj, hpair⟩ := hmap
    rw [Prod.mk.injEq] at hpair
    obtain ⟨rfl, rfl⟩ := hpair
    exact ⟨ha, hj⟩
  · rintro ⟨hd, he⟩
    exact ⟨d, hd, by rw [he]; rfl⟩

theorem gd_eq_some {day : JObj} {pr : JObj × Int} :
    (extract_day_date day).map (fun q => (day, q)) = some pr ↔
      extract_day_date day = some pr.2 ∧ pr.1 = day := by
  constructor
  · intro h
    cases he : extract_day_date day with
    | none => rw [he] at h; cases h
    | some j =>
      rw [he, Option.map_some'] at h
      injection h with h'
      subst h'
      exact ⟨rfl, rfl⟩
  · rintro ⟨he, hd⟩
    rw [he, Option.map_some', ← hd]

theorem filterIf_eq_some {p : α → Bool} {x y : α} :
    (if p x then some x else none) = some y ↔ p x = true ∧ x = y := by
  by_cases h : p x <;> simp [h]

/-- C1: within the calendar entries whose resolved weekday id equals the
target, `_select_by_weekday` returns (i) nothing when there are none,
(ii) the first candidate when none has a parseable date, (iii) the first
candidate carrying the latest parseable date on-or-before the base date
when one exists, and (iv) otherwise the first candidate carrying the
earliest (necessarily future) parseable date. -/
theorem select_by_weekday_spec (calendar : List JObj) (target base : Int) :
    (weekday_candidates calendar target = [] →
      select_by_weekday calendar target base = none) ∧
    (∀ c0 cs, weekday_candidates calendar target = c0 :: cs →
      (∀ d ∈ weekday_candidates calendar target, extract_day_date d = none) →
      select_by_weekday calendar target base = some c0) ∧
    (∀ d0 ∈ weekday_candidates calendar target, ∀ k0,
      extract_day_date d0 = some k0 → k0 ≤ base →
      ∃ r k l1 l2,
        select_by_weekday calendar target base = some r ∧
        extract_day_date r = some k ∧ k ≤ base ∧
        (∀ e ∈ weekday_candidates calendar target, ∀ j,
          extract_day_date e = some j → j ≤ base → j ≤ k) ∧
        weekday_candidates calendar target = l1 ++ r :: l2 ∧
        (∀ e ∈ l1, ∀ j, extract_day_date e = some j → j ≤ base → j < k)) ∧
    (∀ d0 ∈ weekday_candidates calendar target, ∀ k0,
      extract_day_date d0 = some k0 →
      (∀ e ∈ weekday_candidates calendar target, ∀ j,
        extract_day_date e = some j → base < j) →
      ∃ r k l1 l2,
        select_by_weekday calendar target base = some r ∧
        extract_day_date r = some k ∧ base < k ∧
        (∀ e ∈ weekday_candidates calendar target, ∀ j,
          extract_day_date e = some j → k ≤ j) ∧
        weekday_candidates calendar target = l1 ++ r :: l2 ∧
        (∀ e ∈ l1, ∀ j, extract_day_date e = some j → k < j)) := by
  refine ⟨?_, ?_, ?_, ?_⟩
  · intro h
    simp [select_by_weekday, h]
  · intro c0 cs hC hnone
    have hD : dated_candidates (weekday_candidates calendar target) = [] := by
      unfold dated_candidates
      rw [List.filterMap_eq_nil_iff]
      intro a ha
      rw [hnone a ha]
      rfl
    rw [hC] at hD
    simp [select_by_weekday, hC, hD]
  · intro d0 hd0 k0 he0 hk0
    have hd0d : (d0, k0) ∈ dated_candidates (weekday_candidates calendar target) :=
      mem_dated_candidates.mpr ⟨hd0, he0⟩
    have hd0p : (d0, k0) ∈ (dated_candidates
        (weekday_candidates calendar target)).filter
        (fun x => decide (x.2 ≤ base)) :=
      List.mem_filter.mpr ⟨hd0d, by simp [hk0]⟩
    obtain ⟨c0, cs, hC⟩ : ∃ c0 cs,
        weekday_candidates calendar target = c0 :: cs := by
      cases hC : weekday_candidates calendar target with
      | nil => rw [hC] at hd0; cases hd0
      | cons c0 cs => exact ⟨c0, cs, rfl⟩
    obtain ⟨dd, ds, hD⟩ : ∃ dd ds,
        dated_candidates (weekday_candidates calendar target) = dd :: ds := by
      cases hD : dated_candidates (weekday_candidates calendar target) with
      | nil => rw [hD] at hd0d; cases hd0d
      | cons dd ds => exact ⟨dd, ds, rfl⟩
    obtain ⟨p, ps, hP⟩ : ∃ p ps,
        (dated_candidates (weekday_candidates calendar target)).filter
          (fun x => decide (x.2 ≤ base)) = p :: ps := by
      cases hP : (dated_candidates (weekday_candidates calendar target)).filter
          (fun x => decide (x.2 ≤ base)) with
      | nil => rw [hP] at hd0p; cases hd0p
      | cons p ps => exact ⟨p, ps, rfl⟩
    have hD' : dated_candidates (c0 :: cs) = dd :: ds := by
      rw [← hC]
      exact hD
    have hP' : (dd :: ds).filter (fun x => decide (x.2 ≤ base)) = p :: ps := by
      rw [← hD]
      exact hP
    have hsel : select_by_weekday calendar target base =
        some (pyMaxBy (fun x => x.2) p ps).1 := by
      simp only [select_by_weekday, hC, hD', hP']
      simp
    obtain ⟨l1p, l2p, hdecp, hltp, hlep⟩ :=
      pyMaxBy_spec (fun x : JObj × Int => x.2) p ps
    set r := pyMaxBy (fun x : JObj × Int => x.2) p ps with hrdef
    -- decompose the `past_or_today` list through the filter
    have hpastdec : (dated_candidates (weekday_candidates calendar target)).filter
        (fun x => decide (x.2 ≤ base)) = l1p ++ r :: l2p := by
      rw [hP, hdecp]
    rw [← List.filterMap_eq_filter] at hpastdec
    obtain ⟨d1, e, d2, hdateddec, hge, hfm1, hfm2⟩ :=
      filterMap_eq_append_cons hpastdec
    obtain ⟨rfl, hpre⟩ := Option.guard_eq_some.mp hge
    have hrb : r.2 ≤ base := by simpa using hpre
    -- decompose the `dated_candidates` list through the filterMap
    unfold dated_candidates at hdateddec
    obtain ⟨xs1, x, xs2, hCdec, hgx, hgfm1, hgfm2⟩ :=
      filterMap_eq_append_cons hdateddec
    obtain ⟨hxe, hx1⟩ := gd_eq_some.mp hgx
    refine ⟨r.1, r.2, xs1, xs2, hsel, hx1 ▸ hxe, hrb, ?_, hx1 ▸ hCdec, ?_⟩
    · intro e' he' j hej hjb
      have hmem : (e', j) ∈ (dated_candidates
          (weekday_candidates calendar target)).filter
          (fun x => decide (x.2 ≤ base)) :=
        List.mem_filter.mpr ⟨mem_dated_candidates.mpr ⟨he', hej⟩, by simp [hjb]⟩
      rw [hP] at hmem
      exact hlep (e', j) (hdecp ▸ hmem)
    · intro e' he' j hej hjb
      have hmem1 : (e', j) ∈ List.filterMap
          (fun day => (extract_day_date day).map (fun q => (day, q))) xs1 :=
        List.mem_filterMap.mpr ⟨e', he', by rw [hej]; rfl⟩
      rw [hgfm1] at hmem1
      have hmem2 : (e', j) ∈ List.filterMap
          (Option.guard fun x : JObj × Int => decide (x.2 ≤ base) = true) d1 :=
        List.mem_filterMap.mpr
          ⟨(e', j), hmem1, Option.guard_eq_some.mpr ⟨rfl, by simp [hjb]⟩⟩
      rw [hfm1] at hmem2
      exact hltp (e', j) hmem2
  · intro d0 hd0 k0 he0 hfut
    have hd0d : (d0, k0) ∈ dated_candidates (weekday_candidates calendar target) :=
      mem_dated_candidates.mpr ⟨hd0, he0⟩
    obtain ⟨c0, cs, hC⟩ : ∃ c0 cs,
        weekday_candidates calendar target = c0 :: cs := by
      cases hC : weekday_candidates calendar target with
      | nil => rw [hC] at hd0; cases hd0
      | cons c0 cs => exact ⟨c0, cs, rfl⟩
    obtain ⟨dd, ds, hD⟩ : ∃ dd ds,
        dated_candidates (weekday_candidates calendar target) = dd :: ds := by
      cases hD : dated_candidates (weekday_candidates calendar target) with
      | nil => rw [hD] at hd0d; cases hd0d
      | cons dd ds => exact ⟨dd, ds, rfl⟩
    have hPe : (dated_candidates (weekday_candidates calendar target)).filter
        (fun x => decide (x.2 ≤ base)) = [] := by
      rw [List.filter_eq_nil_iff]
      rintro ⟨e, j⟩ hmem
      obtain ⟨he, hej⟩ := mem_dated_candidates.mp hmem
      have := hfut e he j hej
      simp
      omega
    have hD' : dated_candidates (c0 :: cs) = dd :: ds := by
      rw [← hC]
      exact hD
    have hPe' : (dd :: ds).filter (fun x => decide (x.2 ≤ base)) = [] := by
      rw [← hD]
      exact hPe
    have hsel : select_by_weekday calendar target base =
        some (pyMinBy (fun x => x.2) dd ds).1 := by
      simp only [select_by_weekday, hC, hD', hPe']
      simp
    obtain ⟨l1p, l2p, hdecp, hltp, hlep⟩ :=
      pyMinBy_spec (fun x : JObj × Int => x.2) dd ds
    set r := pyMinBy (fun x : JObj × Int => x.2) dd ds with hrdef
    have hdateddec : dated_candidates (weekday_candidates calendar target) =
        l1p ++ r :: l2p := by
      rw [hD, hdecp]
    unfold dated_candidates at hdateddec
    obtain ⟨xs1, x, xs2, hCdec, hgx, hgfm1, hgfm2⟩ :=
      filterMap_eq_append_cons hdateddec
    obtain ⟨hxe, hx1⟩ := gd_eq_some.mp hgx
    have hrmem : r ∈ dd :: ds := by
      rw [hdecp]
      exact List.mem_append.mpr (Or.inr (List.mem_cons_self r l2p))
    have hrbase : base < r.2 := by
      have := hrmem
      rw [← hD] at this
      obtain ⟨hre, hrej⟩ : r.1 ∈ weekday_candidates calendar target ∧
          extract_day_date r.1 = some r.2 := mem_dated_candidates.mp this
      exact hfut r.1 hre r.2 hrej
    refine ⟨r.1, r.2, xs1, xs2, hsel, hx1 ▸ hxe, hrbase, ?_, hx1 ▸ hCdec, ?_⟩
    · intro e' he' j hej
      have hmem : (e', j) ∈ dated_candidates (weekday_candidates calendar target) :=
        mem_dated_candidates.mpr ⟨he', hej⟩
      rw [hD] at hmem
      exact hlep (e', j) (hdecp ▸ hmem)
    · intro e' he' j hej
      have hmem1 : (e', j) ∈ List.filterMap
          (fun day => (extract_day_date day).map (fun q => (day, q))) xs1 :=
        List.mem_filterMap.mpr ⟨e', he', by rw [hej]; rfl⟩
      rw [hgfm1] at hmem1
      exact hltp (e', j) hmem1

/-- A calendar bucket with a numeric weekday id and a date string, for the
selection witnesses. -/
def exDay (wid : Int) (ds : String) : JObj :=
  [("weekday", .jobj [("id", .jint wid)]), ("date", .jstr ds)]

/-- Witness for C1: two Monday buckets dated 2024-05-06 (ordinal 739012)
and 2024-05-13, base date 2024-05-10 (ordinal 739016); by application of
`select_by_weekday_spec`, the selected bucket carries the latest
on-or-before date, 2024-05-06. -/
theorem select_by_weekday_spec_witness :
    ∃ r k l1 l2,
      select_by_weekday [exDay 1 "2024-05-06", exDay 1 "2024-05-13"] 1 739016 =
        some r ∧
      extract_day_date r = some k ∧ k ≤ 739016 ∧
      (∀ e ∈ weekday_candidates [exDay 1 "2024-05-06", exDay 1 "2024-05-13"] 1,
        ∀ j, extract_day_date e = some j → j ≤ 739016 → j ≤ k) ∧
      weekday_candidates [exDay 1 "2024-05-06", exDay 1 "2024-05-13"] 1 =
        l1 ++ r :: l2 ∧
      (∀ e ∈ l1, ∀ j, extract_day_date e = some j → j ≤ 739016 → j < k) :=
  (select_by_weekday_spec [exDay 1 "2024-05-06", exDay 1 "2024-05-13"] 1
      739016).2.2.1
    (exDay 1 "2024-05-06")
    (by rw [show weekday_candidates [exDay 1 "2024-05-06", exDay 1 "2024-05-13"] 1 =
          [exDay 1 "2024-05-06", exDay 1 "2024-05-13"] from rfl]
        exact List.mem_cons_self _ _)
    739012 (by decide) (by decide)

/-! ## C2: `_select_today` -/

theorem pyMaxBy_mem (f : α → Int) (a : α) (l : List α) : pyMaxBy f a l ∈ a :: l := by
  obtain ⟨l1, l2, hdec, -, -⟩ := pyMaxBy_spec f a l
  rw [hdec]
  exact List.mem_append.mpr (Or.inr (List.mem_cons_self _ _))

theorem pyMinBy_mem (f : α → Int) (a : α) (l : List α) : pyMinBy f a l ∈ a :: l := by
  obtain ⟨l1, l2, hdec, -, -⟩ := pyMinBy_spec f a l
  rw [hdec]
  exact List.mem_append.mpr (Or.inr (List.mem_cons_self _ _))

/-- Anything `_select_by_weekday` returns is one of its weekday
candidates. -/
theorem select_by_weekday_mem {cal : List JObj} {t b : Int} {d : JObj}
    (h : select_by_weekday cal t b = some d) : d ∈ weekday_candidates cal t := by
  simp only [select_by_weekday] at h
  by_cases h1 : (weekday_candidates cal t).isEmpty
  · rw [if_pos h1] at h
    cases h
  · rw [if_neg h1] at h
    by_cases h2 : (dated_candidates (weekday_candidates cal t)).isEmpty
    · rw [if_pos h2] at h
      cases hc : weekday_candidates cal t with
      | nil => rw [hc] at h; cases h
      | cons c0 cs =>
        rw [hc] at h
        injection h with h'
        rw [← h']
        exact List.mem_cons_self c0 cs
    · rw [if_neg h2] at h
      cases hP : (dated_candidates (weekday_candidates cal t)).filter
          (fun x => decide (x.2 ≤ b)) with
      | cons p ps =>
        rw [hP] at h
        injection h with h'
        have hpr : pyMaxBy (fun x : JObj × Int => x.2) p ps ∈ p :: ps :=
          pyMaxBy_mem _ p ps
        rw [← hP] at hpr
        have hdat := (List.mem_filter.mp hpr).1
        have := (mem_dated_candidates.mp hdat).1
        rw [← h']
        exact this
      | nil =>
        rw [hP] at h
        cases hD : dated_candidates (weekday_candidates cal t) with
        | nil => rw [hD] at h; cases h
        | cons dd ds =>
          rw [hD] at h
          injection h with h'
          have hpr : pyMinBy (fun x : JObj × Int => x.2) dd ds ∈ dd :: ds :=
            pyMinBy_mem _ dd ds
          rw [← hD] at hpr
          have := (mem_dated_candidates.mp hpr).1
          rw [← h']
          exact this

/-- Weekday candidates have a `weekday` field, so they are non-empty
dicts: Python's `if selected:` cannot reject them. -/
theorem select_by_weekday_truthy {cal : List JObj} {t b : Int} {d : JObj}
    (h : select_by_weekday cal t b = some d) : pyTruthy (.jobj d) = true := by
  have hd := select_by_weekday_mem h
  have hw := (List.mem_filter.mp hd).2
  cases d with
  | nil =>
    rw [show extract_weekday_id [] = none from rfl] at hw
    exact Bool.noConfusion hw
  | cons a as => rfl

theorem find?_append_cons {p : α → Bool} {l1 : List α} {d : α} {l2 : List α}
    (hd : p d = true) (hl1 : ∀ e ∈ l1, p e = false) :
    (l1 ++ d :: l2).find? p = some d := by
  induction l1 with
  | nil =>
    rw [List.nil_append]
    exact List.find?_cons_of_pos l2 hd
  | cons a as ih =>
    rw [List.cons_append,
      List.find?_cons_of_neg _ (by simp [hl1 a (List.mem_cons_self a as)])]
    exact ih (fun e he => hl1 e (List.mem_cons_of_mem a he))

/-- C2: `_select_today` first defers to `_select_by_weekday` at today's
weekday id (today resolved in Asia/Shanghai); failing that it returns the
first bucket whose parsed date equals today; failing that the first bucket
of the calendar; and `none` on an empty calendar. -/
theorem select_today_spec (calendar : List JObj) (today : Int) :
    (calendar = [] → select_today calendar today = none) ∧
    (∀ d, select_by_weekday calendar (ordIsoweekday today) today = some d →
      select_today calendar today = some d) ∧
    (select_by_weekday calendar (ordIsoweekday today) today = none →
      ∀ l1 d l2, calendar = l1 ++ d :: l2 →
        extract_day_date d = some today →
        (∀ e ∈ l1, extract_day_date e ≠ some today) →
        select_today calendar today = some d) ∧
    (select_by_weekday calendar (ordIsoweekday today) today = none →
      (∀ e ∈ calendar, extract_day_date e ≠ some today) →
      ∀ c0 cs, calendar = c0 :: cs →
        select_today calendar today = some c0) := by
  refine ⟨?_, ?_, ?_, ?_⟩
  · rintro rfl
    rfl
  · intro d hd
    have hne : calendar ≠ [] := by
      have hmem := select_by_weekday_mem hd
      have := List.mem_of_mem_filter hmem
      exact List.ne_nil_of_mem this
    simp only [select_today]
    rw [if_neg (by simp [hne]), hd]
    show (if pyTruthy (.jobj d) = true then some d
      else select_today_fallback calendar today) = some d
    rw [if_pos (select_by_weekday_truthy hd)]
  · intro hnone l1 d l2 hdec he hbefore
    have hne : calendar ≠ [] := by
      rw [hdec]
      exact List.append_ne_nil_of_right_ne_nil l1 (List.cons_ne_nil d l2)
    simp only [select_today]
    rw [if_neg (by simp [hne]), hnone]
    simp only [select_today_fallback]
    rw [hdec, find?_append_cons (by simp [he]) ?_]
    intro e hee
    have := hbefore e hee
    simp only [beq_eq_false_iff_ne, ne_eq]
    simpa using this
  · intro hnone hnodate c0 cs hdec
    simp only [select_today]
    rw [if_neg (by simp [hdec]), hnone]
    simp only [select_today_fallback]
    rw [List.find?_eq_none.mpr ?_, hdec]
    · rfl
    · intro e hee
      have := hnodate e hee
      simpa using this

/-- Witness for C2: with a Monday 2024-05-06 bucket and a Tuesday
2024-05-07 bucket, today = 2024-05-07 (ordinal 739013, a Tuesday) selects
the Tuesday bucket through the weekday path, by application of
`select_today_spec`. -/
theorem select_today_spec_witness :
    select_today [exDay 1 "2024-05-06", exDay 2 "2024-05-07"] 739013 =
      some (exDay 2 "2024-05-07") :=
  (select_today_spec [exDay 1 "2024-05-06", exDay 2 "2024-05-07"] 739013).2.1
    (exDay 2 "2024-05-07") rfl

end BangumiSpec
